import Mathlib

/-!
# Verification of the AI-Tutor diagnosis/tutoring state machine

Shallow embedding of the session controller, evidence aggregator/finalizer
and batch driver implemented in `src/main.py` (function `run_conversation`,
inner function `process_task`, driver `run_batch`) over the data model of
`src/models.py`.  Machine floats are modelled by exact rationals; Python's
`round(x, 2)` (round-half-to-even, as used on the confidence values) is
modelled by `round2`, and the bare `round` used for the turn-2 level
average by `pyRound`.
-/

namespace AITutor

/-- Python's `round` on an exact rational: nearest integer, ties to even. -/
def roundHalfEven (q : ℚ) : ℤ :=
  if q - Int.floor q < 1/2 then Int.floor q
  else if 1/2 < q - Int.floor q then Int.floor q + 1
  else if Int.floor q % 2 = 0 then Int.floor q else Int.floor q + 1

/-- Python's `round(x, 2)`: round to the nearest multiple of 1/100. -/
def round2 (q : ℚ) : ℚ := roundHalfEven (q * 100) / 100

/-- Python's `round(x)` (used for the turn-2 level average). -/
def pyRound (q : ℚ) : ℤ := roundHalfEven q

theorem roundHalfEven_le (q : ℚ) : (roundHalfEven q : ℚ) ≤ q + 1/2 := by
  have h1 : ((Int.floor q : ℤ) : ℚ) ≤ q := Int.floor_le q
  have h2 : q < (Int.floor q : ℤ) + 1 := Int.lt_floor_add_one q
  unfold roundHalfEven
  split_ifs with h3 h4 h5 <;> push_cast <;> linarith

theorem le_roundHalfEven (q : ℚ) : q - 1/2 ≤ (roundHalfEven q : ℚ) := by
  have h1 : ((Int.floor q : ℤ) : ℚ) ≤ q := Int.floor_le q
  have h2 : q < (Int.floor q : ℤ) + 1 := Int.lt_floor_add_one q
  unfold roundHalfEven
  split_ifs with h3 h4 h5 <;> push_cast <;> linarith

/-- Rounding to hundredths never overshoots a bound that is itself a
multiple of 1/100. -/
theorem round2_le_hundredth (x : ℚ) (k : ℤ) (h : x ≤ (k : ℚ) / 100) :
    round2 x ≤ (k : ℚ) / 100 := by
  have hb := roundHalfEven_le (x * 100)
  have h1 : (roundHalfEven (x * 100) : ℚ) ≤ (k : ℚ) + 1/2 := by
    have : x * 100 ≤ (k : ℚ) := by linarith
    linarith
  have h2 : roundHalfEven (x * 100) ≤ k := by
    have : (roundHalfEven (x * 100) : ℚ) < (k : ℚ) + 1 := by linarith
    exact_mod_cast Int.lt_add_one_iff.mp (by exact_mod_cast this)
  unfold round2
  have : (roundHalfEven (x * 100) : ℚ) ≤ (k : ℚ) := by exact_mod_cast h2
  linarith

/-- Rounding to hundredths never undershoots a lower bound that is itself a
multiple of 1/100. -/
theorem hundredth_le_round2 (x : ℚ) (k : ℤ) (h : (k : ℚ) / 100 ≤ x) :
    (k : ℚ) / 100 ≤ round2 x := by
  have hb := le_roundHalfEven (x * 100)
  have h1 : (k : ℚ) - 1/2 ≤ (roundHalfEven (x * 100) : ℚ) := by
    have : (k : ℚ) ≤ x * 100 := by linarith
    linarith
  have h2 : k ≤ roundHalfEven (x * 100) := by
    have : (k : ℚ) - 1 < (roundHalfEven (x * 100) : ℚ) := by linarith
    have h3 : (k : ℤ) - 1 < roundHalfEven (x * 100) := by exact_mod_cast this
    omega
  unfold round2
  have : (k : ℚ) ≤ (roundHalfEven (x * 100) : ℚ) := by exact_mod_cast h2
  linarith

/-- `round2` moves its argument by at most 1/200. -/
theorem round2_le_add (x : ℚ) : round2 x ≤ x + 1/200 := by
  have hb := roundHalfEven_le (x * 100)
  unfold round2
  linarith

theorem sub_le_round2 (x : ℚ) : x - 1/200 ≤ round2 x := by
  have hb := le_roundHalfEven (x * 100)
  unfold round2
  linarith

/-! ## Data model (`src/models.py`) -/

/-- `DetectiveOutput` (models.py): the oracle judgment consumed on each
diagnosis turn.  Pydantic bounds (`ge`/`le` fields) become the `WF`
predicate below. -/
structure DetectiveOutput where
  is_correct : Bool
  reasoning_score : ℕ
  misconception : Option String
  estimated_level : ℕ
  confidence : ℚ
  next_message : String
deriving DecidableEq

/-- The pydantic field bounds of `DetectiveOutput`. -/
def DetectiveOutput.WF (a : DetectiveOutput) : Prop :=
  1 ≤ a.reasoning_score ∧ a.reasoning_score ≤ 5 ∧
  1 ≤ a.estimated_level ∧ a.estimated_level ≤ 5 ∧
  0 ≤ a.confidence ∧ a.confidence ≤ 1

instance : DecidablePred DetectiveOutput.WF := fun a => by
  unfold DetectiveOutput.WF; infer_instance

/-- `DiagnosticEvent` (models.py): per-turn diagnostic evidence. -/
structure DiagnosticEvent where
  turn : ℕ
  is_correct : Bool
  reasoning_score : ℕ
  misconception : Option String
  llm_level : ℕ
  computed_level : ℕ
  confidence : ℚ
deriving DecidableEq

/-- Message roles; the Python strings "tutor" / "student" are modelled as an
enumeration. -/
inductive Role where
  | tutor
  | student
deriving DecidableEq

structure Message where
  role : Role
  content : String
deriving DecidableEq

/-- The values of `StudentState.switch_reason`; the Python strings
"confidence" / "shot_clock" / "early_exit" are modelled as an
enumeration. -/
inductive SwitchReason where
  | confidence
  | shot_clock
  | early_exit
deriving DecidableEq

/-- `StudentState` (models.py): session state for one student-topic pair. -/
structure StudentState where
  student_id : String
  topic_id : String
  topic_name : String
  turn_count : ℕ
  estimated_level : ℕ
  confidence : ℚ
  history : List Message
  misconceptions : List String
  promo_votes : ℕ
  diagnostic_events : List DiagnosticEvent
  level_locked : Bool
  switch_reason : Option SwitchReason
deriving DecidableEq

/-- The state built at the top of `run_conversation`: model defaults from
`models.py` (`turn_count` becomes 1 after the opening exchange,
`estimated_level = 3`, `confidence = 0.0`) plus the two opening history
entries. -/
def initState (sid tid tname opener stud0 : String) : StudentState :=
  { student_id := sid
    topic_id := tid
    topic_name := tname
    turn_count := 1
    estimated_level := 3
    confidence := 0
    history := [⟨Role.tutor, opener⟩, ⟨Role.student, stud0⟩]
    misconceptions := []
    promo_votes := 0
    diagnostic_events := []
    level_locked := false
    switch_reason := none }

/-! ## Session controller (`run_conversation` main loop, main.py) -/

/-- `max(1, min(5, z))` as in the Python level clamping. -/
def clamp15 (z : ℤ) : ℕ := (max 1 (min 5 z)).toNat

/-- The evidence-based level update of the diagnosis phase
(main.py lines 111-148): baseline on turns 1-2, asymmetric
promotion/demotion voting from turn 3 on. -/
def levelUpdate (s : StudentState) (a : DetectiveOutput) : StudentState :=
  if s.turn_count = 1 then
    { s with estimated_level := a.estimated_level }
  else if s.turn_count = 2 then
    { s with estimated_level :=
        clamp15 (pyRound (((s.estimated_level : ℚ) + a.estimated_level) / 2)) }
  else if s.estimated_level < a.estimated_level then
    if 2 ≤ s.promo_votes + 1 then
      { s with estimated_level := min (s.estimated_level + 1) 5, promo_votes := 0 }
    else
      { s with promo_votes := s.promo_votes + 1 }
  else if a.estimated_level < s.estimated_level then
    if a.is_correct = false ∧ a.reasoning_score ≤ 2 then
      { s with estimated_level := max (s.estimated_level - 1) 1, promo_votes := 0 }
    else s
  else
    { s with promo_votes := 0 }

/-- Confidence smoothing (main.py lines 150-153):
`smoothed = min(confidence + 0.15, raw)`, capped at 0.95 and rounded to
two decimals. -/
def confSmooth (conf raw : ℚ) : ℚ :=
  round2 (min (19/20) (min (conf + 3/20) raw))

/-- Python `if analysis.misconception:` truthiness - `None` and the empty
string are both skipped. -/
def truthyAppend (l : List String) (o : Option String) : List String :=
  match o with
  | some m => if m = "" then l else l ++ [m]
  | none => l

/-- Records the smoothed confidence, the misconception (if truthy) and the
`DiagnosticEvent` of this diagnosis turn; `s1` is the state after the level
update, whose `turn_count` and `estimated_level` feed the event. -/
def logEvent (s1 : StudentState) (a : DetectiveOutput) (smoothed : ℚ) : StudentState :=
  { s1 with
    confidence := smoothed
    misconceptions := truthyAppend s1.misconceptions a.misconception
    diagnostic_events := s1.diagnostic_events ++
      [⟨s1.turn_count, a.is_correct, a.reasoning_score, a.misconception,
        a.estimated_level, s1.estimated_level, smoothed⟩] }

/-- The early-exit and confidence lock checks at the end of a diagnosis
turn (main.py lines 188-211), evaluated on the state that already carries
the new event and smoothed confidence. -/
def applyLocks (s : StudentState) (a : DetectiveOutput) : StudentState :=
  if 17/20 ≤ a.confidence ∧ a.is_correct = true ∧ 4 ≤ a.reasoning_score ∧
      3 ≤ s.diagnostic_events.length then
    { s with level_locked := true, switch_reason := some SwitchReason.early_exit }
  else if 3/4 ≤ s.confidence then
    { s with level_locked := true, switch_reason := some SwitchReason.confidence }
  else s

/-- One full diagnosis-phase body (main.py lines 95-221). -/
def diagnosisTurn (s : StudentState) (a : DetectiveOutput) : StudentState :=
  applyLocks (logEvent (levelUpdate s a) a (confSmooth s.confidence a.confidence)) a

/-- The shot-clock fail-safe checked first on every turn
(main.py lines 75-93): `SHOT_CLOCK = 6`. -/
def shotClock (s : StudentState) : StudentState :=
  if s.level_locked = false ∧ 6 ≤ s.turn_count then
    { s with level_locked := true, switch_reason := some SwitchReason.shot_clock }
  else s

/-- Per-turn external inputs: the oracle judgment (used only in diagnosis
phase), the tutoring text produced by `llm.tutor` (used only in tutoring
phase), the student's reply, and the completion flag of the response. -/
structure TurnInput where
  analysis : DetectiveOutput
  tutor_text : String
  student_response : String
  is_complete : Bool
deriving DecidableEq

def TurnInput.WF (i : TurnInput) : Prop := i.analysis.WF

instance : DecidablePred TurnInput.WF := fun i => by
  unfold TurnInput.WF; infer_instance

/-- Tail of every loop iteration: append the exchanged messages and
increment `turn_count`. -/
def endTurn (s : StudentState) (tmsg smsg : String) : StudentState :=
  { s with
    history := s.history ++ [⟨Role.tutor, tmsg⟩, ⟨Role.student, smsg⟩]
    turn_count := s.turn_count + 1 }

/-- One iteration of the main loop of `run_conversation`: shot clock
first, then diagnosis if unlocked and confidence < 0.75, else tutoring. -/
def turnStep (s : StudentState) (i : TurnInput) : StudentState :=
  if (shotClock s).level_locked = false ∧ (shotClock s).confidence < 3/4 then
    endTurn (diagnosisTurn (shotClock s) i.analysis)
      i.analysis.next_message i.student_response
  else
    endTurn (shotClock s) i.tutor_text i.student_response

/-- The main loop: continues while `turn_count < turns` and the previous
response did not signal completion; consumes one `TurnInput` per
iteration. -/
def runLoop (turns : ℕ) (s : StudentState) (complete : Bool) :
    List TurnInput → StudentState
  | [] => s
  | i :: rest =>
    if s.turn_count < turns ∧ complete = false then
      runLoop turns (turnStep s i) i.is_complete rest
    else s

/-! ## Evidence aggregator / finalizer (main.py lines 247-262) -/

/-- The `computed_level` values of the last `min(3, len(events))`
diagnostic events. -/
def recentLevels (s : StudentState) : List ℕ :=
  ((s.diagnostic_events.drop
      (s.diagnostic_events.length - min 3 s.diagnostic_events.length)).map
    (fun e => e.computed_level))

/-- `recent_levels.sort()` of the finalizer. -/
def sortedRecent (s : StudentState) : List ℕ :=
  List.insertionSort (fun a b => a ≤ b) (recentLevels s)

/-- `recent_levels[len(recent_levels) // 2]` after the in-place sort:
the lower median. -/
def medianRecent (s : StudentState) : ℕ :=
  (sortedRecent s).getD ((sortedRecent s).length / 2) 0

/-- The deterministic finalizer: overwrite `estimated_level` with the
lower median of the recent computed levels exactly when the session ended
ambiguously (`switch_reason == "shot_clock"` or confidence < 0.75). -/
def finalize (s : StudentState) : StudentState :=
  if s.diagnostic_events = [] then s
  else if s.switch_reason = some SwitchReason.shot_clock ∨ s.confidence < 3/4 then
    { s with estimated_level := medianRecent s }
  else s

/-- `run_conversation` return value: the finalized estimated level. -/
def run_conversation (sid tid tname opener stud0 : String) (turns : ℕ)
    (c0 : Bool) (inputs : List TurnInput) : ℕ :=
  (finalize (runLoop turns (initState sid tid tname opener stud0) c0 inputs)).estimated_level

/-! ## Batch driver (`run_batch` / `process_task`, main.py lines 275-358) -/

structure Task where
  student_id : String
  topic_id : String
deriving DecidableEq

structure Prediction where
  student_id : String
  topic_id : String
  predicted_level : ℕ
deriving DecidableEq

/-- `process_task`: a raised exception inside `run_conversation` is
modelled as `Except.error ()`; the `except` branch substitutes the default
fallback prediction of level 3. -/
def process_task (t : Task) (outcome : Except Unit ℕ) : Prediction :=
  match outcome with
  | Except.ok level => ⟨t.student_id, t.topic_id, level⟩
  | Except.error _ => ⟨t.student_id, t.topic_id, 3⟩

/-- The batch loop: one `process_task` result per task, in order; `f`
gives each task's conversation outcome (normal return or raised
exception). -/
def run_batch (tasks : List Task) (f : Task → Except Unit ℕ) : List Prediction :=
  tasks.map (fun t => process_task t (f t))

/-! ## Reduction lemmas for the controller step -/

theorem shotClock_skip (s : StudentState) (_h1 : s.level_locked = false)
    (h2 : s.turn_count < 6) : shotClock s = s := by
  unfold shotClock
  rw [if_neg]
  intro h
  omega

theorem shotClock_locked (s : StudentState) (h : s.level_locked = true) :
    shotClock s = s := by
  unfold shotClock
  rw [if_neg]
  intro hc
  rw [h] at hc
  exact absurd hc.1 (by simp)

theorem shotClock_fire (s : StudentState) (h1 : s.level_locked = false)
    (h2 : 6 ≤ s.turn_count) :
    shotClock s =
      { s with level_locked := true, switch_reason := some SwitchReason.shot_clock } := by
  unfold shotClock
  rw [if_pos ⟨h1, h2⟩]

theorem turnStep_locked (s : StudentState) (i : TurnInput)
    (h : s.level_locked = true) :
    turnStep s i = endTurn s i.tutor_text i.student_response := by
  unfold turnStep
  rw [shotClock_locked s h, if_neg]
  intro hc
  rw [h] at hc
  exact absurd hc.1 (by simp)

theorem turnStep_diag (s : StudentState) (i : TurnInput)
    (h1 : s.level_locked = false) (h2 : s.turn_count < 6)
    (h3 : s.confidence < 3/4) :
    turnStep s i =
      endTurn (diagnosisTurn s i.analysis) i.analysis.next_message
        i.student_response := by
  unfold turnStep
  rw [shotClock_skip s h1 h2, if_pos ⟨h1, h3⟩]

theorem turnStep_shot (s : StudentState) (i : TurnInput)
    (h1 : s.level_locked = false) (h2 : 6 ≤ s.turn_count) :
    turnStep s i =
      endTurn
        { s with level_locked := true, switch_reason := some SwitchReason.shot_clock }
        i.tutor_text i.student_response := by
  unfold turnStep
  rw [shotClock_fire s h1 h2, if_neg]
  intro hc
  exact absurd hc.1 (by simp)

theorem turnStep_tutor (s : StudentState) (i : TurnInput)
    (h1 : s.level_locked = false) (h2 : s.turn_count < 6)
    (h3 : ¬ s.confidence < 3/4) :
    turnStep s i = endTurn s i.tutor_text i.student_response := by
  unfold turnStep
  rw [shotClock_skip s h1 h2, if_neg]
  intro hc
  exact absurd hc.2 h3

/-! ## Field lemmas for the diagnosis body -/

theorem levelUpdate_confidence (s : StudentState) (a : DetectiveOutput) :
    (levelUpdate s a).confidence = s.confidence := by
  unfold levelUpdate
  split_ifs <;> rfl

theorem levelUpdate_turn_count (s : StudentState) (a : DetectiveOutput) :
    (levelUpdate s a).turn_count = s.turn_count := by
  unfold levelUpdate
  split_ifs <;> rfl

theorem levelUpdate_events (s : StudentState) (a : DetectiveOutput) :
    (levelUpdate s a).diagnostic_events = s.diagnostic_events := by
  unfold levelUpdate
  split_ifs <;> rfl

theorem levelUpdate_locked (s : StudentState) (a : DetectiveOutput) :
    (levelUpdate s a).level_locked = s.level_locked := by
  unfold levelUpdate
  split_ifs <;> rfl

theorem levelUpdate_reason (s : StudentState) (a : DetectiveOutput) :
    (levelUpdate s a).switch_reason = s.switch_reason := by
  unfold levelUpdate
  split_ifs <;> rfl

theorem diagnosisTurn_estimated_level (s : StudentState) (a : DetectiveOutput) :
    (diagnosisTurn s a).estimated_level = (levelUpdate s a).estimated_level := by
  unfold diagnosisTurn applyLocks
  split_ifs <;> rfl

theorem diagnosisTurn_promo_votes (s : StudentState) (a : DetectiveOutput) :
    (diagnosisTurn s a).promo_votes = (levelUpdate s a).promo_votes := by
  unfold diagnosisTurn applyLocks
  split_ifs <;> rfl

theorem diagnosisTurn_confidence (s : StudentState) (a : DetectiveOutput) :
    (diagnosisTurn s a).confidence = confSmooth s.confidence a.confidence := by
  unfold diagnosisTurn applyLocks
  split_ifs <;> rfl

theorem diagnosisTurn_turn_count (s : StudentState) (a : DetectiveOutput) :
    (diagnosisTurn s a).turn_count = s.turn_count := by
  unfold diagnosisTurn applyLocks
  split_ifs <;> simp [logEvent, levelUpdate_turn_count]

theorem diagnosisTurn_events (s : StudentState) (a : DetectiveOutput) :
    (diagnosisTurn s a).diagnostic_events = s.diagnostic_events ++
      [⟨s.turn_count, a.is_correct, a.reasoning_score, a.misconception,
        a.estimated_level, (levelUpdate s a).estimated_level,
        confSmooth s.confidence a.confidence⟩] := by
  unfold diagnosisTurn applyLocks
  split_ifs <;> simp [logEvent, levelUpdate_events, levelUpdate_turn_count]

/-- Lock trichotomy for a diagnosis turn: early exit, confidence lock, or
no lock with the smoothed confidence still below the threshold. -/
theorem diagnosisTurn_cases (s : StudentState) (a : DetectiveOutput) :
    ((diagnosisTurn s a).level_locked = true ∧
       (diagnosisTurn s a).switch_reason = some SwitchReason.early_exit) ∨
    ((diagnosisTurn s a).level_locked = true ∧
       (diagnosisTurn s a).switch_reason = some SwitchReason.confidence ∧
       3/4 ≤ confSmooth s.confidence a.confidence) ∨
    ((diagnosisTurn s a).level_locked = s.level_locked ∧
       (diagnosisTurn s a).switch_reason = s.switch_reason ∧
       confSmooth s.confidence a.confidence < 3/4) := by
  unfold diagnosisTurn applyLocks
  split_ifs with h1 h2
  · exact Or.inl ⟨rfl, rfl⟩
  · exact Or.inr (Or.inl ⟨rfl, rfl, h2⟩)
  · refine Or.inr (Or.inr ⟨?_, ?_, not_le.mp h2⟩) <;>
      simp [logEvent, levelUpdate_locked, levelUpdate_reason]

/-! ## Bounds on the confidence smoothing -/

theorem confSmooth_le_cap (conf raw : ℚ) : confSmooth conf raw ≤ 19/20 := by
  have h : min (19/20 : ℚ) (min (conf + 3/20) raw) ≤ ((95 : ℤ) : ℚ) / 100 := by
    have := min_le_left (19/20 : ℚ) (min (conf + 3/20) raw)
    push_cast
    linarith
  have := round2_le_hundredth _ 95 h
  unfold confSmooth
  push_cast at this
  linarith

theorem confSmooth_le_add (conf raw : ℚ) (k : ℕ) (hc : conf = (k : ℚ) / 100) :
    confSmooth conf raw ≤ conf + 3/20 := by
  have h : min (19/20 : ℚ) (min (conf + 3/20) raw) ≤ (((k : ℤ) + 15 : ℤ) : ℚ) / 100 := by
    have h1 := min_le_right (conf + 3/20 : ℚ) raw
    have h2 := min_le_right (19/20 : ℚ) (min (conf + 3/20) raw)
    have h3 := min_le_left (conf + 3/20 : ℚ) raw
    push_cast
    rw [hc] at h2 h3 ⊢
    calc min (19/20 : ℚ) (min ((k : ℚ)/100 + 3/20) raw) ≤ (k : ℚ)/100 + 3/20 := le_trans h2 h3
    _ = ((k : ℚ) + 15) / 100 := by ring
  have := round2_le_hundredth _ ((k : ℤ) + 15) h
  unfold confSmooth
  have heq : conf + 3/20 = ((k : ℚ) + 15) / 100 := by
    rw [hc]
    ring
  push_cast at this
  rw [← heq] at this
  exact this

theorem confSmooth_le_raw (conf raw : ℚ) : confSmooth conf raw ≤ raw + 1/200 := by
  have h1 : min (19/20 : ℚ) (min (conf + 3/20) raw) ≤ raw :=
    le_trans (min_le_right _ _) (min_le_right _ _)
  have h2 := round2_le_add (min (19/20 : ℚ) (min (conf + 3/20) raw))
  unfold confSmooth
  linarith

theorem confSmooth_nonneg (conf raw : ℚ) (hconf : 0 ≤ conf) (hraw : 0 ≤ raw) :
    0 ≤ confSmooth conf raw := by
  have h : ((0 : ℤ) : ℚ) / 100 ≤ min (19/20 : ℚ) (min (conf + 3/20) raw) := by
    simp only [le_min_iff]
    norm_num
    constructor <;> linarith
  have := hundredth_le_round2 _ 0 h
  unfold confSmooth
  push_cast at this
  linarith

theorem le_confSmooth (conf raw : ℚ) (k : ℕ) (hc : conf = (k : ℚ) / 100)
    (hcap : conf ≤ 19/20) (hraw : conf ≤ raw) : conf ≤ confSmooth conf raw := by
  have h : (((k : ℤ) : ℤ) : ℚ) / 100 ≤ min (19/20 : ℚ) (min (conf + 3/20) raw) := by
    simp only [le_min_iff]
    push_cast
    rw [← hc]
    refine ⟨hcap, by linarith, hraw⟩
  have := hundredth_le_round2 _ (k : ℤ) h
  unfold confSmooth
  push_cast at this
  rw [← hc] at this
  exact this

theorem confSmooth_form (conf raw : ℚ) (hconf : 0 ≤ conf) (hraw : 0 ≤ raw) :
    ∃ k : ℕ, k ≤ 95 ∧ confSmooth conf raw = (k : ℚ) / 100 := by
  have hx0 : (0 : ℚ) ≤ min (19/20 : ℚ) (min (conf + 3/20) raw) := by
    simp only [le_min_iff]
    norm_num
    constructor <;> linarith
  have hx95 : min (19/20 : ℚ) (min (conf + 3/20) raw) ≤ 19/20 := min_le_left _ _
  have h1 := roundHalfEven_le (min (19/20 : ℚ) (min (conf + 3/20) raw) * 100)
  have h2 := le_roundHalfEven (min (19/20 : ℚ) (min (conf + 3/20) raw) * 100)
  have hm0 : 0 ≤ roundHalfEven (min (19/20 : ℚ) (min (conf + 3/20) raw) * 100) := by
    have hq : (-1 : ℚ) <
        (roundHalfEven (min (19/20 : ℚ) (min (conf + 3/20) raw) * 100) : ℚ) := by
      nlinarith
    have : (-1 : ℤ) < roundHalfEven (min (19/20 : ℚ) (min (conf + 3/20) raw) * 100) := by
      exact_mod_cast hq
    omega
  have hm95 : roundHalfEven (min (19/20 : ℚ) (min (conf + 3/20) raw) * 100) ≤ 95 := by
    have hq : (roundHalfEven (min (19/20 : ℚ) (min (conf + 3/20) raw) * 100) : ℚ) <
        (96 : ℚ) := by nlinarith
    have : roundHalfEven (min (19/20 : ℚ) (min (conf + 3/20) raw) * 100) < (96 : ℤ) := by
      exact_mod_cast hq
    omega
  refine ⟨(roundHalfEven (min (19/20 : ℚ) (min (conf + 3/20) raw) * 100)).toNat, ?_, ?_⟩
  · omega
  · unfold confSmooth round2
    have hcast :
        (((roundHalfEven (min (19/20 : ℚ) (min (conf + 3/20) raw) * 100)).toNat : ℕ) : ℚ) =
        ((roundHalfEven (min (19/20 : ℚ) (min (conf + 3/20) raw) * 100) : ℤ) : ℚ) := by
      exact_mod_cast congrArg Int.cast (Int.toNat_of_nonneg hm0)
    rw [hcast]

/-! ## Projection lemmas for the common turn tail -/

theorem endTurn_confidence (s : StudentState) (t m : String) :
    (endTurn s t m).confidence = s.confidence := rfl

theorem endTurn_level_locked (s : StudentState) (t m : String) :
    (endTurn s t m).level_locked = s.level_locked := rfl

theorem endTurn_switch_reason (s : StudentState) (t m : String) :
    (endTurn s t m).switch_reason = s.switch_reason := rfl

theorem endTurn_events (s : StudentState) (t m : String) :
    (endTurn s t m).diagnostic_events = s.diagnostic_events := rfl

theorem endTurn_estimated_level (s : StudentState) (t m : String) :
    (endTurn s t m).estimated_level = s.estimated_level := rfl

theorem endTurn_promo_votes (s : StudentState) (t m : String) :
    (endTurn s t m).promo_votes = s.promo_votes := rfl

theorem endTurn_turn_count (s : StudentState) (t m : String) :
    (endTurn s t m).turn_count = s.turn_count + 1 := rfl

/-! ## The session invariant -/

/-- Invariant maintained by every loop iteration of `run_conversation`:
the smoothed confidence is a hundredth in `[0, 0.95]`, is at most `0.15`
per recorded diagnostic event, an unlocked session is below the
confidence threshold, has run at most 6 turns, has no switch reason and
has one diagnostic event for each of turns `1 .. turn_count - 1`; and a
session locked for reason "confidence" has confidence exactly `0.75` with
diagnostic events exactly at turns 1-5. -/
def Inv (s : StudentState) : Prop :=
  (∃ k : ℕ, k ≤ 95 ∧ s.confidence = (k : ℚ) / 100) ∧
  s.confidence ≤ 3/20 * (s.diagnostic_events.length : ℚ) ∧
  (s.level_locked = false →
    s.confidence < 3/4 ∧ s.turn_count ≤ 6 ∧ s.switch_reason = none ∧
    s.diagnostic_events.map (fun e => e.turn) = List.range' 1 (s.turn_count - 1)) ∧
  (s.switch_reason = some SwitchReason.confidence →
    s.confidence = 3/4 ∧
    s.diagnostic_events.map (fun e => e.turn) = List.range' 1 5) ∧
  1 ≤ s.turn_count

theorem inv_init (sid tid tname opener stud0 : String) :
    Inv (initState sid tid tname opener stud0) := by
  refine ⟨⟨0, by norm_num, by norm_num [initState]⟩, ?_, ?_, ?_, ?_⟩ <;>
    simp [initState]

theorem turnStep_inv (s : StudentState) (i : TurnInput) (hwf : i.WF)
    (h : Inv s) : Inv (turnStep s i) := by
  obtain ⟨⟨k, hk95, hkc⟩, hcnt, hunl, hcr, htc⟩ := h
  have hwf' : i.analysis.WF := hwf
  obtain ⟨hr1, hr5, hl1, hl5, hc0, hc1⟩ := hwf'
  by_cases hlock : s.level_locked = true
  · -- locked session: pure tutoring turn, all tracked fields unchanged
    rw [turnStep_locked s i hlock]
    refine ⟨⟨k, hk95, hkc⟩, hcnt, ?_, ?_, ?_⟩
    · intro hfalse
      rw [endTurn_level_locked, hlock] at hfalse
      exact absurd hfalse (by simp)
    · intro hr
      rw [endTurn_switch_reason] at hr
      exact hcr hr
    · rw [endTurn_turn_count]
      omega
  · have hlockf : s.level_locked = false := by
      cases hpat : s.level_locked
      · rfl
      · exact absurd hpat hlock
    have hconf_lt := (hunl hlockf).1
    have htcle := (hunl hlockf).2.1
    have hreason := (hunl hlockf).2.2.1
    have hmap := (hunl hlockf).2.2.2
    have hlen : s.diagnostic_events.length = s.turn_count - 1 := by
      have := congrArg List.length hmap
      simpa using this
    by_cases h6 : 6 ≤ s.turn_count
    · -- shot-clock turn: lock fires, nothing else changes
      rw [turnStep_shot s i hlockf h6]
      refine ⟨⟨k, hk95, hkc⟩, hcnt, ?_, ?_, ?_⟩
      · intro hfalse
        rw [endTurn_level_locked] at hfalse
        exact absurd hfalse (by simp)
      · intro hr
        rw [endTurn_switch_reason] at hr
        simp at hr
      · rw [endTurn_turn_count]
        omega
    · -- diagnosis turn
      have h6' : s.turn_count < 6 := by omega
      rw [turnStep_diag s i hlockf h6' hconf_lt]
      have hdconf := diagnosisTurn_confidence s i.analysis
      have hdev := diagnosisTurn_events s i.analysis
      have hdtc := diagnosisTurn_turn_count s i.analysis
      have hconf0 : (0 : ℚ) ≤ s.confidence := by
        rw [hkc]
        positivity
      have hle_add : confSmooth s.confidence i.analysis.confidence ≤
          s.confidence + 3/20 := confSmooth_le_add _ _ k hkc
      obtain ⟨k', hk95', hk'c⟩ :=
        confSmooth_form s.confidence i.analysis.confidence hconf0 hc0
      refine ⟨⟨k', hk95', ?_⟩, ?_, ?_, ?_, ?_⟩
      · rw [endTurn_confidence, hdconf]
        exact hk'c
      · rw [endTurn_confidence, endTurn_events, hdconf, hdev,
          List.length_append]
        simp only [List.length_singleton]
        push_cast
        linarith
      · intro hunl'
        rw [endTurn_level_locked] at hunl'
        rcases diagnosisTurn_cases s i.analysis with ⟨hL, _⟩ | ⟨hL, _, _⟩ |
          ⟨_, hR, hC⟩
        · rw [hunl'] at hL
          exact absurd hL (by simp)
        · rw [hunl'] at hL
          exact absurd hL (by simp)
        · refine ⟨?_, ?_, ?_, ?_⟩
          · rw [endTurn_confidence, hdconf]
            exact hC
          · rw [endTurn_turn_count, hdtc]
            omega
          · rw [endTurn_switch_reason, hR]
            exact hreason
          · rw [endTurn_events, endTurn_turn_count, hdev, hdtc]
            obtain ⟨m, hm⟩ : ∃ m, s.turn_count = m + 1 :=
              ⟨s.turn_count - 1, by omega⟩
            rw [hm] at hmap ⊢
            simp only [Nat.add_sub_cancel] at hmap ⊢
            rw [List.map_append, hmap]
            simp only [List.map_cons, List.map_nil]
            have hconcat : List.range' 1 (m + 1) = List.range' 1 m ++ [1 + 1 * m] :=
              List.range'_concat 1 m
            have harith : 1 + 1 * m = m + 1 := by omega
            rw [harith] at hconcat
            rw [hconcat]
      · intro hr'
        rw [endTurn_switch_reason] at hr'
        rcases diagnosisTurn_cases s i.analysis with ⟨_, hR⟩ | ⟨_, hR, hC⟩ |
          ⟨_, hR, _⟩
        · rw [hr'] at hR
          simp at hR
        · -- the confidence lock fired this turn
          have h5 : 5 ≤ s.diagnostic_events.length + 1 := by
            by_contra h5n
            push_neg at h5n
            have hq : (s.diagnostic_events.length : ℚ) + 1 ≤ 4 := by
              have : s.diagnostic_events.length + 1 ≤ 4 := by omega
              exact_mod_cast this
            linarith
          have htc5 : s.turn_count = 5 := by omega
          have hlen4 : s.diagnostic_events.length = 4 := by omega
          constructor
          · rw [endTurn_confidence, hdconf]
            have hup : confSmooth s.confidence i.analysis.confidence ≤ 3/4 := by
              have hq : (s.diagnostic_events.length : ℚ) = 4 := by
                exact_mod_cast hlen4
              rw [hq] at hcnt
              linarith
            linarith [hC]
          · rw [endTurn_events, hdev, List.map_append]
            rw [htc5] at hmap
            norm_num at hmap
            rw [htc5, hmap]
            simp only [List.map_cons, List.map_nil]
            decide
        · rw [hR, hreason] at hr'
          exact absurd hr' (by simp)
      · rw [endTurn_turn_count]
        omega

theorem runLoop_inv (turns : ℕ) :
    ∀ (inputs : List TurnInput) (s : StudentState) (c : Bool),
      (∀ i ∈ inputs, i.WF) → Inv s → Inv (runLoop turns s c inputs)
  | [], s, c, _, hs => hs
  | i :: rest, s, c, hwf, hs => by
    unfold runLoop
    split_ifs with hcond
    · exact runLoop_inv turns rest (turnStep s i) i.is_complete
        (fun j hj => hwf j (List.mem_cons_of_mem _ hj))
        (turnStep_inv s i (hwf i (List.mem_cons_self _ _)) hs)
    · exact hs

/-! ## Locked sessions are frozen -/

theorem turnStep_locked_fields (s : StudentState) (i : TurnInput)
    (h : s.level_locked = true) :
    (turnStep s i).estimated_level = s.estimated_level ∧
    (turnStep s i).level_locked = true ∧
    (turnStep s i).switch_reason = s.switch_reason ∧
    (turnStep s i).confidence = s.confidence ∧
    (turnStep s i).diagnostic_events = s.diagnostic_events := by
  rw [turnStep_locked s i h]
  refine ⟨rfl, ?_, rfl, rfl, rfl⟩
  rw [endTurn_level_locked]
  exact h

theorem runLoop_locked (turns : ℕ) :
    ∀ (inputs : List TurnInput) (s : StudentState) (c : Bool),
      s.level_locked = true →
      (runLoop turns s c inputs).estimated_level = s.estimated_level ∧
      (runLoop turns s c inputs).level_locked = true ∧
      (runLoop turns s c inputs).switch_reason = s.switch_reason ∧
      (runLoop turns s c inputs).confidence = s.confidence ∧
      (runLoop turns s c inputs).diagnostic_events = s.diagnostic_events
  | [], s, c, h => ⟨rfl, h, rfl, rfl, rfl⟩
  | i :: rest, s, c, h => by
    unfold runLoop
    split_ifs with hcond
    · obtain ⟨h1, h2, h3, h4, h5⟩ := turnStep_locked_fields s i h
      obtain ⟨g1, g2, g3, g4, g5⟩ :=
        runLoop_locked turns rest (turnStep s i) i.is_complete h2
      exact ⟨g1.trans h1, g2, g3.trans h3, g4.trans h4, g5.trans h5⟩
    · exact ⟨rfl, h, rfl, rfl, rfl⟩

/-! ## Sessions without diagnostic events keep the default level 3 -/

theorem turnStep_default_level (s : StudentState) (i : TurnInput)
    (h : s.diagnostic_events = [] → s.estimated_level = 3) :
    (turnStep s i).diagnostic_events = [] →
    (turnStep s i).estimated_level = 3 := by
  intro he
  by_cases hlock : s.level_locked = true
  · rw [turnStep_locked s i hlock] at he ⊢
    rw [endTurn_events] at he
    rw [endTurn_estimated_level]
    exact h he
  · have hlockf : s.level_locked = false := by
      cases hpat : s.level_locked
      · rfl
      · exact absurd hpat hlock
    by_cases h6 : 6 ≤ s.turn_count
    · rw [turnStep_shot s i hlockf h6] at he ⊢
      rw [endTurn_events] at he
      rw [endTurn_estimated_level]
      exact h he
    · by_cases hc : s.confidence < 3/4
      · rw [turnStep_diag s i hlockf (by omega) hc] at he
        rw [endTurn_events, diagnosisTurn_events s i.analysis] at he
        exact absurd he (by simp)
      · rw [turnStep_tutor s i hlockf (by omega) hc] at he ⊢
        rw [endTurn_events] at he
        rw [endTurn_estimated_level]
        exact h he

theorem runLoop_default_level (turns : ℕ) :
    ∀ (inputs : List TurnInput) (s : StudentState) (c : Bool),
      (s.diagnostic_events = [] → s.estimated_level = 3) →
      (runLoop turns s c inputs).diagnostic_events = [] →
      (runLoop turns s c inputs).estimated_level = 3
  | [], s, c, h => h
  | i :: rest, s, c, h => by
    unfold runLoop
    split_ifs with hcond
    · exact runLoop_default_level turns rest (turnStep s i) i.is_complete
        (turnStep_default_level s i h)
    · exact h

/-! ## Finalizer case splits -/

theorem finalize_empty (s : StudentState) (h : s.diagnostic_events = []) :
    finalize s = s := by
  unfold finalize
  rw [if_pos h]

theorem finalize_not_ambiguous (s : StudentState)
    (h2 : ¬(s.switch_reason = some SwitchReason.shot_clock ∨ s.confidence < 3/4)) :
    finalize s = s := by
  unfold finalize
  by_cases ha : s.diagnostic_events = []
  · rw [if_pos ha]
  · rw [if_neg ha, if_neg h2]

theorem finalize_ambiguous (s : StudentState) (h1 : s.diagnostic_events ≠ [])
    (h2 : s.switch_reason = some SwitchReason.shot_clock ∨ s.confidence < 3/4) :
    finalize s = { s with estimated_level := medianRecent s } := by
  unfold finalize
  rw [if_neg h1, if_pos h2]

/-! ## Concrete fixtures used by the witnesses and counterexamples -/

def emptyStr : String := ""

/-- A concrete oracle judgment. -/
def mkJudgment (lvl : ℕ) (conf : ℚ) (correct : Bool) (rs : ℕ) : DetectiveOutput :=
  { is_correct := correct
    reasoning_score := rs
    misconception := none
    estimated_level := lvl
    confidence := conf
    next_message := emptyStr }

/-- A concrete per-turn input that does not end the conversation. -/
def mkInput (lvl : ℕ) (conf : ℚ) (correct : Bool) (rs : ℕ) : TurnInput :=
  { analysis := mkJudgment lvl conf correct rs
    tutor_text := emptyStr
    student_response := emptyStr
    is_complete := false }

/-- A freshly initialized session. -/
def s0c : StudentState := initState emptyStr emptyStr emptyStr emptyStr emptyStr

/-- An unlocked session that has reached the shot-clock turn. -/
def sAtSix : StudentState := { s0c with turn_count := 6 }

/-- A session that locked earlier. -/
def sLocked : StudentState :=
  { s0c with
    turn_count := 4
    level_locked := true
    switch_reason := some SwitchReason.early_exit }

/-! ## Claim theorems -/

/-- C4: on any turn of an unlocked session with `turn_count >= 6` the
shot clock locks the session with `switch_reason = "shot_clock"` before
any diagnosis runs (level, events and confidence untouched, independent of
the confidence value); once any lock holds, the loop never mutates
`estimated_level` again (until the finalizer); and the shot-clock reason
is never set on a turn of an unlocked session with `turn_count < 6`. -/
theorem shot_clock_rules (s : StudentState) (i : TurnInput) (turns : ℕ)
    (c : Bool) (inputs : List TurnInput) :
    (s.level_locked = false → 6 ≤ s.turn_count →
      (turnStep s i).level_locked = true ∧
      (turnStep s i).switch_reason = some SwitchReason.shot_clock ∧
      (turnStep s i).estimated_level = s.estimated_level ∧
      (turnStep s i).diagnostic_events = s.diagnostic_events ∧
      (turnStep s i).confidence = s.confidence) ∧
    (s.level_locked = true →
      (runLoop turns s c inputs).estimated_level = s.estimated_level ∧
      (runLoop turns s c inputs).level_locked = true ∧
      (runLoop turns s c inputs).switch_reason = s.switch_reason) ∧
    (s.level_locked = false → s.turn_count < 6 → s.switch_reason = none →
      (turnStep s i).switch_reason ≠ some SwitchReason.shot_clock) := by
  refine ⟨?_, ?_, ?_⟩
  · intro hl h6
    rw [turnStep_shot s i hl h6]
    exact ⟨rfl, rfl, rfl, rfl, rfl⟩
  · intro hl
    obtain ⟨g1, g2, g3, _, _⟩ := runLoop_locked turns inputs s c hl
    exact ⟨g1, g2, g3⟩
  · intro hl h6 hr
    by_cases hc : s.confidence < 3/4
    · rw [turnStep_diag s i hl h6 hc, endTurn_switch_reason]
      rcases diagnosisTurn_cases s i.analysis with ⟨_, hR⟩ | ⟨_, hR, _⟩ |
        ⟨_, hR, _⟩ <;> rw [hR] <;> simp [hr]
    · rw [turnStep_tutor s i hl h6 hc, endTurn_switch_reason, hr]
      simp

theorem shot_clock_rules_witness :
    (turnStep sAtSix (mkInput 3 1 false 1)).level_locked = true ∧
    (turnStep sAtSix (mkInput 3 1 false 1)).switch_reason =
      some SwitchReason.shot_clock ∧
    (turnStep sAtSix (mkInput 3 1 false 1)).estimated_level = 3 ∧
    (runLoop 8 sLocked false [mkInput 3 1 false 1]).estimated_level = 3 ∧
    (turnStep s0c (mkInput 3 1 false 1)).switch_reason ≠
      some SwitchReason.shot_clock := by
  obtain ⟨ha, -, -⟩ := shot_clock_rules sAtSix (mkInput 3 1 false 1) 8 false []
  obtain ⟨-, hb, -⟩ :=
    shot_clock_rules sLocked (mkInput 3 1 false 1) 8 false [mkInput 3 1 false 1]
  obtain ⟨-, -, hc⟩ := shot_clock_rules s0c (mkInput 3 1 false 1) 8 false []
  have ha' := ha rfl (by decide)
  exact ⟨ha'.1, ha'.2.1, ha'.2.2.1, (hb rfl).1, hc rfl (by decide) rfl⟩

/-- C9: in exact arithmetic, a session can lock with
`switch_reason = "confidence"` only on its 5th diagnosis turn: starting
from the initial state, any run of the loop (over well-formed oracle
judgments) that ends with reason "confidence" has confidence exactly 0.75
and one diagnostic event for each of turns 1,2,3,4,5 - the lock fired on
turn 5, the fifth diagnosis turn, before the shot clock could apply. -/
theorem confidence_lock_fifth_turn (sid tid tname opener stud0 : String)
    (turns : ℕ) (c0 : Bool) (inputs : List TurnInput)
    (hwf : ∀ i ∈ inputs, i.WF)
    (hreason : (runLoop turns (initState sid tid tname opener stud0) c0
        inputs).switch_reason = some SwitchReason.confidence) :
    (runLoop turns (initState sid tid tname opener stud0) c0
        inputs).confidence = 3/4 ∧
    (runLoop turns (initState sid tid tname opener stud0) c0
        inputs).diagnostic_events.map (fun e => e.turn) = [1, 2, 3, 4, 5] := by
  obtain ⟨_, _, _, hcr, _⟩ := runLoop_inv turns inputs
    (initState sid tid tname opener stud0) c0 hwf
    (inv_init sid tid tname opener stud0)
  obtain ⟨h1, h2⟩ := hcr hreason
  refine ⟨h1, ?_⟩
  rw [h2]
  decide

theorem confidence_lock_fifth_turn_witness :
    (runLoop 8 (initState emptyStr emptyStr emptyStr emptyStr emptyStr) false
        [mkInput 3 1 false 1, mkInput 3 1 false 1, mkInput 3 1 false 1,
         mkInput 3 1 false 1, mkInput 3 1 false 1]).confidence = 3/4 ∧
    (runLoop 8 (initState emptyStr emptyStr emptyStr emptyStr emptyStr) false
        [mkInput 3 1 false 1, mkInput 3 1 false 1, mkInput 3 1 false 1,
         mkInput 3 1 false 1, mkInput 3 1 false 1]).diagnostic_events.map
      (fun e => e.turn) = [1, 2, 3, 4, 5] := by
  refine confidence_lock_fifth_turn emptyStr emptyStr emptyStr emptyStr emptyStr
    8 false _ ?_ ?_
  · intro j hj
    fin_cases hj <;>
      norm_num [TurnInput.WF, DetectiveOutput.WF, mkInput, mkJudgment]
  · norm_num [runLoop, turnStep, shotClock, diagnosisTurn, applyLocks, logEvent,
      levelUpdate, confSmooth, round2, roundHalfEven, endTurn, truthyAppend,
      clamp15, pyRound, initState, mkInput, mkJudgment, emptyStr]

/-- C10: a session whose loop records no diagnostic event (e.g. the
conversation is complete before the first loop turn) returns the
initialization default level 3, because the finalizer makes no adjustment
on an empty event list - the same value as the error-fallback prediction
of `process_task`. -/
theorem empty_events_default_level (sid tid tname opener stud0 : String)
    (turns : ℕ) (c0 : Bool) (inputs : List TurnInput)
    (hempty : (runLoop turns (initState sid tid tname opener stud0) c0
        inputs).diagnostic_events = []) :
    run_conversation sid tid tname opener stud0 turns c0 inputs = 3 ∧
    (∀ t : Task, ∀ e : Unit, (process_task t (Except.error e)).predicted_level = 3) := by
  constructor
  · unfold run_conversation
    rw [finalize_empty _ hempty]
    exact runLoop_default_level turns inputs _ c0 (fun _ => rfl) hempty
  · intro t e
    rfl

theorem empty_events_default_level_witness :
    run_conversation emptyStr emptyStr emptyStr emptyStr emptyStr 8 true
      [mkInput 3 1 false 1] = 3 ∧
    (∀ t : Task, ∀ e : Unit, (process_task t (Except.error e)).predicted_level = 3) :=
  empty_events_default_level emptyStr emptyStr emptyStr emptyStr emptyStr 8 true
    [mkInput 3 1 false 1] rfl

/-- C8: the batch driver emits exactly one prediction per requested
student-topic pair, in order, carrying that pair's ids; a pair whose
conversation raised gets the fallback level 3, and a pair whose
conversation returned a level gets that level - no pair is omitted. -/
theorem batch_one_prediction_per_pair (tasks : List Task)
    (f : Task → Except Unit ℕ) :
    (run_batch tasks f).length = tasks.length ∧
    (∀ j : ℕ, ∀ hj : j < tasks.length, ∀ hj2 : j < (run_batch tasks f).length,
      ((run_batch tasks f).get ⟨j, hj2⟩).student_id =
        (tasks.get ⟨j, hj⟩).student_id ∧
      ((run_batch tasks f).get ⟨j, hj2⟩).topic_id =
        (tasks.get ⟨j, hj⟩).topic_id ∧
      (∀ e : Unit, f (tasks.get ⟨j, hj⟩) = Except.error e →
        ((run_batch tasks f).get ⟨j, hj2⟩).predicted_level = 3) ∧
      (∀ lvl : ℕ, f (tasks.get ⟨j, hj⟩) = Except.ok lvl →
        ((run_batch tasks f).get ⟨j, hj2⟩).predicted_level = lvl)) := by
  constructor
  · simp [run_batch]
  · intro j hj hj2
    have hget : (run_batch tasks f).get ⟨j, hj2⟩ =
        process_task (tasks.get ⟨j, hj⟩) (f (tasks.get ⟨j, hj⟩)) := by
      simp [run_batch]
    rw [hget]
    refine ⟨?_, ?_, ?_, ?_⟩
    · unfold process_task
      cases f (tasks.get ⟨j, hj⟩) <;> rfl
    · unfold process_task
      cases f (tasks.get ⟨j, hj⟩) <;> rfl
    · intro e he
      rw [he]
      rfl
    · intro lvl hl
      rw [hl]
      rfl

/-- The pair whose conversation raises. -/
def taskA : Task := ⟨"sA", "tA"⟩

/-- The pair whose conversation returns level 4. -/
def taskB : Task := ⟨"sB", "tB"⟩

/-- Batch outcomes: `taskA` raises, every other pair returns level 4. -/
def fBatch : Task → Except Unit ℕ :=
  fun t => if t = taskA then Except.error () else Except.ok 4

theorem batch_one_prediction_per_pair_witness :
    (run_batch [taskA, taskB] fBatch).length = 2 ∧
    ((run_batch [taskA, taskB] fBatch).get
      ⟨0, by norm_num [run_batch]⟩).predicted_level = 3 ∧
    ((run_batch [taskA, taskB] fBatch).get
      ⟨1, by norm_num [run_batch]⟩).predicted_level = 4 := by
  have h := batch_one_prediction_per_pair [taskA, taskB] fBatch
  refine ⟨h.1, ?_, ?_⟩
  · have h0 := h.2 0 (by norm_num) (by norm_num [run_batch])
    exact h0.2.2.1 () (by simp [fBatch])
  · have h1 := h.2 1 (by norm_num) (by norm_num [run_batch])
    refine h1.2.2.2 4 ?_
    have hne : taskB ≠ taskA := by
      intro hcontra
      have := congrArg Task.student_id hcontra
      simp [taskA, taskB] at this
    simp [fBatch, hne]

/-- C3: for a session with diagnostic events, the finalizer overwrites
`estimated_level` with the element at index `len // 2` of the
ascending-sorted list of the last `min(3, len(events))` computed levels
(the lower median, a member of those recent levels) if and only if
`switch_reason == "shot_clock"` or the pre-finalize confidence is below
0.75; otherwise (and on an empty event list, by `finalize_empty`) the
state is unchanged. -/
theorem finalizer_median_iff (s : StudentState) (h : s.diagnostic_events ≠ []) :
    ((s.switch_reason = some SwitchReason.shot_clock ∨ s.confidence < 3/4) →
      (finalize s).estimated_level =
        (sortedRecent s).getD ((sortedRecent s).length / 2) 0 ∧
      List.Sorted (fun a b => a ≤ b) (sortedRecent s) ∧
      (sortedRecent s).Perm (recentLevels s) ∧
      (finalize s).estimated_level ∈ recentLevels s) ∧
    (¬(s.switch_reason = some SwitchReason.shot_clock ∨ s.confidence < 3/4) →
      finalize s = s) := by
  have hlenr : (recentLevels s).length = min 3 s.diagnostic_events.length := by
    unfold recentLevels
    rw [List.length_map, List.length_drop]
    omega
  have hpos : 0 < s.diagnostic_events.length := List.length_pos.mpr h
  constructor
  · intro hcond
    rw [finalize_ambiguous s h hcond]
    have hsorted : List.Sorted (fun a b => a ≤ b) (sortedRecent s) :=
      List.sorted_insertionSort _ _
    have hperm : (sortedRecent s).Perm (recentLevels s) :=
      List.perm_insertionSort _ _
    refine ⟨rfl, hsorted, hperm, ?_⟩
    show medianRecent s ∈ recentLevels s
    have hlens : (sortedRecent s).length = (recentLevels s).length :=
      hperm.length_eq
    have hlt : (sortedRecent s).length / 2 < (sortedRecent s).length := by
      rw [hlens, hlenr]
      omega
    unfold medianRecent
    rw [List.getD_eq_getElem _ _ hlt]
    exact hperm.subset (List.getElem_mem _)
  · exact finalize_not_ambiguous s

/-- A diagnostic event of Scenario E, with the given turn and computed
level. -/
def evE (t lvl : ℕ) : DiagnosticEvent :=
  { turn := t
    is_correct := true
    reasoning_score := 3
    misconception := none
    llm_level := lvl
    computed_level := lvl
    confidence := 1/2 }

/-- Scenario E state: events with computed levels 2, 3, 4 and a
shot-clock lock. -/
def sE : StudentState :=
  { s0c with
    turn_count := 7
    estimated_level := 4
    confidence := 3/5
    diagnostic_events := [evE 1 2, evE 2 3, evE 3 4]
    level_locked := true
    switch_reason := some SwitchReason.shot_clock }

/-- Scenario E variant: same events, locked by confidence at 0.75. -/
def sE2 : StudentState :=
  { sE with
    confidence := 3/4
    switch_reason := some SwitchReason.confidence }

theorem finalizer_median_iff_witness :
    (finalize sE).estimated_level = 3 ∧ finalize sE2 = sE2 := by
  have h1 := (finalizer_median_iff sE (by decide)).1 (Or.inl rfl)
  have h2 := (finalizer_median_iff sE2 (by decide)).2 ?noambig
  case noambig =>
    intro hcon
    rcases hcon with hr | hcf
    · exact absurd hr (by decide)
    · norm_num [sE2, sE] at hcf
  refine ⟨?_, h2⟩
  rw [h1.1]
  decide

/-- C6: on a diagnosis turn with turn index >= 3 where the oracle
suggests a strictly lower level (>= 1), the estimate drops by exactly 1
(staying >= 1) and `promo_votes` resets to 0 if and only if the evidence
is strong (`is_correct == false` and `reasoning_score <= 2`); with weak
disagreeing evidence the estimate (and `promo_votes`) are unchanged. -/
theorem demotion_rules (s : StudentState) (i : TurnInput)
    (hlock : s.level_locked = false) (hconf : s.confidence < 3/4)
    (h3 : 3 ≤ s.turn_count) (h6 : s.turn_count < 6)
    (hlt : i.analysis.estimated_level < s.estimated_level)
    (hl1 : 1 ≤ i.analysis.estimated_level) :
    (i.analysis.is_correct = false ∧ i.analysis.reasoning_score ≤ 2 →
      (turnStep s i).estimated_level = s.estimated_level - 1 ∧
      1 ≤ (turnStep s i).estimated_level ∧
      (turnStep s i).promo_votes = 0) ∧
    (¬(i.analysis.is_correct = false ∧ i.analysis.reasoning_score ≤ 2) →
      (turnStep s i).estimated_level = s.estimated_level ∧
      (turnStep s i).promo_votes = s.promo_votes) := by
  rw [turnStep_diag s i hlock h6 hconf]
  have hlvl := diagnosisTurn_estimated_level s i.analysis
  have hpv := diagnosisTurn_promo_votes s i.analysis
  constructor
  · intro hstrong
    have hlu : levelUpdate s i.analysis =
        { s with
          estimated_level := max (s.estimated_level - 1) 1
          promo_votes := 0 } := by
      unfold levelUpdate
      rw [if_neg (by omega), if_neg (by omega), if_neg (by omega),
        if_pos hlt, if_pos hstrong]
    rw [endTurn_estimated_level, endTurn_promo_votes, hlvl, hpv, hlu]
    have hmax : max (s.estimated_level - 1) 1 = s.estimated_level - 1 := by
      omega
    refine ⟨hmax, ?_, rfl⟩
    show 1 ≤ max (s.estimated_level - 1) 1
    omega
  · intro hweak
    have hlu : levelUpdate s i.analysis = s := by
      unfold levelUpdate
      rw [if_neg (by omega), if_neg (by omega), if_neg (by omega),
        if_pos hlt, if_neg hweak]
    rw [endTurn_estimated_level, endTurn_promo_votes, hlvl, hpv, hlu]
    exact ⟨rfl, rfl⟩

/-- Scenario C state: level 3, third turn. -/
def sC6 : StudentState := { s0c with turn_count := 3 }

theorem demotion_rules_witness :
    (turnStep sC6 (mkInput 2 (1/2) false 1)).estimated_level = 2 ∧
    (turnStep sC6 (mkInput 2 (1/2) false 1)).promo_votes = 0 := by
  have h := demotion_rules sC6 (mkInput 2 (1/2) false 1) rfl
    (by norm_num [sC6, s0c, initState]) (by decide) (by decide) (by decide)
    (by decide)
  have h1 := h.1 ⟨rfl, by decide⟩
  exact ⟨h1.1, h1.2.2⟩

/-- C7: on the first diagnosis turn the estimate is set directly to the
oracle's suggested level; on the second it is set to the Python
`round((previous + suggested) / 2)` (banker's rounding) clamped to
`[1,5]`; in particular suggestions 2 then 4 give level 3 after turn 2. -/
theorem baseline_rules (s : StudentState) (i : TurnInput)
    (hlock : s.level_locked = false) (hconf : s.confidence < 3/4) :
    (s.turn_count = 1 →
      (turnStep s i).estimated_level = i.analysis.estimated_level) ∧
    (s.turn_count = 2 →
      (turnStep s i).estimated_level =
        clamp15 (pyRound (((s.estimated_level : ℚ) +
          i.analysis.estimated_level) / 2))) := by
  constructor
  · intro h1
    rw [turnStep_diag s i hlock (by omega) hconf, endTurn_estimated_level,
      diagnosisTurn_estimated_level]
    unfold levelUpdate
    rw [if_pos h1]
  · intro h2
    rw [turnStep_diag s i hlock (by omega) hconf, endTurn_estimated_level,
      diagnosisTurn_estimated_level]
    unfold levelUpdate
    rw [if_neg (by omega), if_pos h2]

theorem baseline_rules_witness :
    (turnStep s0c (mkInput 2 (1/2) true 3)).estimated_level = 2 ∧
    (turnStep (turnStep s0c (mkInput 2 (1/2) true 3))
      (mkInput 4 (1/2) true 3)).estimated_level = 3 := by
  have h1 := (baseline_rules s0c (mkInput 2 (1/2) true 3) rfl
    (by norm_num [s0c, initState])).1 rfl
  have hlock2 : (turnStep s0c (mkInput 2 (1/2) true 3)).level_locked = false := by
    norm_num [turnStep, shotClock, diagnosisTurn, applyLocks, logEvent,
      levelUpdate, confSmooth, round2, roundHalfEven, endTurn, truthyAppend,
      clamp15, pyRound, s0c, initState, mkInput, mkJudgment, emptyStr]
  have hconf2 : (turnStep s0c (mkInput 2 (1/2) true 3)).confidence < 3/4 := by
    norm_num [turnStep, shotClock, diagnosisTurn, applyLocks, logEvent,
      levelUpdate, confSmooth, round2, roundHalfEven, endTurn, truthyAppend,
      clamp15, pyRound, s0c, initState, mkInput, mkJudgment, emptyStr]
  have htc2 : (turnStep s0c (mkInput 2 (1/2) true 3)).turn_count = 2 := by
    norm_num [turnStep, shotClock, diagnosisTurn, applyLocks, logEvent,
      levelUpdate, confSmooth, round2, roundHalfEven, endTurn, truthyAppend,
      clamp15, pyRound, s0c, initState, mkInput, mkJudgment, emptyStr]
  have h2 := (baseline_rules (turnStep s0c (mkInput 2 (1/2) true 3))
    (mkInput 4 (1/2) true 3) hlock2 hconf2).2 htc2
  refine ⟨h1, ?_⟩
  rw [h2, h1]
  norm_num [clamp15, pyRound, roundHalfEven, mkInput, mkJudgment]
  decide

/-- C2 (amended): for diagnosis turns with turn index >= 3, the estimate
increments only on a turn where the oracle suggests a strictly greater
level and the incremented vote count reaches 2 (then `promo_votes` resets
to 0); `promo_votes` resets to 0 on same-level turns and on strong
demoting turns, but a strictly-lower-suggestion turn with weak evidence
leaves both `promo_votes` and the estimate unchanged - so the two
promotion votes need not be consecutive. -/
theorem promo_votes_rules (s : StudentState) (i : TurnInput)
    (hlock : s.level_locked = false) (hconf : s.confidence < 3/4)
    (h3 : 3 ≤ s.turn_count) (h6 : s.turn_count < 6) :
    (s.estimated_level < i.analysis.estimated_level →
      (2 ≤ s.promo_votes + 1 →
        (turnStep s i).estimated_level = min (s.estimated_level + 1) 5 ∧
        (turnStep s i).promo_votes = 0) ∧
      (s.promo_votes + 1 < 2 →
        (turnStep s i).estimated_level = s.estimated_level ∧
        (turnStep s i).promo_votes = s.promo_votes + 1)) ∧
    (i.analysis.estimated_level < s.estimated_level →
      (i.analysis.is_correct = false ∧ i.analysis.reasoning_score ≤ 2 →
        (turnStep s i).promo_votes = 0) ∧
      (¬(i.analysis.is_correct = false ∧ i.analysis.reasoning_score ≤ 2) →
        (turnStep s i).promo_votes = s.promo_votes ∧
        (turnStep s i).estimated_level = s.estimated_level)) ∧
    (i.analysis.estimated_level = s.estimated_level →
      (turnStep s i).promo_votes = 0 ∧
      (turnStep s i).estimated_level = s.estimated_level) := by
  rw [turnStep_diag s i hlock h6 hconf]
  have hlvl := diagnosisTurn_estimated_level s i.analysis
  have hpv := diagnosisTurn_promo_votes s i.analysis
  refine ⟨?_, ?_, ?_⟩
  · intro hgt
    constructor
    · intro hv
      have hlu : levelUpdate s i.analysis =
          { s with
            estimated_level := min (s.estimated_level + 1) 5
            promo_votes := 0 } := by
        unfold levelUpdate
        rw [if_neg (by omega), if_neg (by omega), if_pos hgt, if_pos hv]
      rw [endTurn_estimated_level, endTurn_promo_votes, hlvl, hpv, hlu]
      exact ⟨rfl, rfl⟩
    · intro hv
      have hlu : levelUpdate s i.analysis =
          { s with promo_votes := s.promo_votes + 1 } := by
        unfold levelUpdate
        rw [if_neg (by omega), if_neg (by omega), if_pos hgt, if_neg (by omega)]
      rw [endTurn_estimated_level, endTurn_promo_votes, hlvl, hpv, hlu]
      exact ⟨rfl, rfl⟩
  · intro hltl
    constructor
    · intro hstrong
      have hlu : levelUpdate s i.analysis =
          { s with
            estimated_level := max (s.estimated_level - 1) 1
            promo_votes := 0 } := by
        unfold levelUpdate
        rw [if_neg (by omega), if_neg (by omega), if_neg (by omega),
          if_pos hltl, if_pos hstrong]
      rw [endTurn_promo_votes, hpv, hlu]
    · intro hweak
      have hlu : levelUpdate s i.analysis = s := by
        unfold levelUpdate
        rw [if_neg (by omega), if_neg (by omega), if_neg (by omega),
          if_pos hltl, if_neg hweak]
      rw [endTurn_estimated_level, endTurn_promo_votes, hlvl, hpv, hlu]
      exact ⟨rfl, rfl⟩
  · intro heq
    have hlu : levelUpdate s i.analysis = { s with promo_votes := 0 } := by
      unfold levelUpdate
      rw [if_neg (by omega), if_neg (by omega), if_neg (by omega),
        if_neg (by omega)]
    rw [endTurn_estimated_level, endTurn_promo_votes, hlvl, hpv, hlu]
    exact ⟨rfl, rfl⟩

/-- An unlocked session on turn 4 with one pending promotion vote. -/
def sPv : StudentState :=
  { s0c with
    turn_count := 4
    promo_votes := 1 }

theorem promo_votes_rules_witness :
    (turnStep sPv (mkInput 4 (1/10) true 3)).estimated_level = 4 ∧
    (turnStep sPv (mkInput 4 (1/10) true 3)).promo_votes = 0 := by
  have h := (promo_votes_rules sPv (mkInput 4 (1/10) true 3) rfl
    (by norm_num [sPv, s0c, initState]) (by decide) (by decide)).1 (by decide)
  have h1 := h.1 (by decide)
  exact ⟨h1.1, h1.2⟩

theorem promo_votes_reset_counterexample :
    (runLoop 8 s0c false [mkInput 3 (1/10) true 3, mkInput 3 (1/10) true 3,
        mkInput 4 (1/10) true 3]).promo_votes = 1 ∧
    (runLoop 8 s0c false [mkInput 3 (1/10) true 3, mkInput 3 (1/10) true 3,
        mkInput 4 (1/10) true 3]).estimated_level = 3 ∧
    (runLoop 8 s0c false [mkInput 3 (1/10) true 3, mkInput 3 (1/10) true 3,
        mkInput 4 (1/10) true 3, mkInput 2 (1/10) true 5]).promo_votes = 1 ∧
    (runLoop 8 s0c false [mkInput 3 (1/10) true 3, mkInput 3 (1/10) true 3,
        mkInput 4 (1/10) true 3, mkInput 2 (1/10) true 5]).estimated_level = 3 ∧
    (runLoop 8 s0c false [mkInput 3 (1/10) true 3, mkInput 3 (1/10) true 3,
        mkInput 4 (1/10) true 3, mkInput 2 (1/10) true 5,
        mkInput 4 (1/10) true 3]).estimated_level = 4 := by
  norm_num [runLoop, turnStep, shotClock, diagnosisTurn, applyLocks, logEvent,
    levelUpdate, confSmooth, round2, roundHalfEven, endTurn, truthyAppend,
    clamp15, pyRound, s0c, initState, mkInput, mkJudgment, emptyStr]
  decide

/-- C5 (amended): on a diagnosis turn the new confidence equals
`round(min(0.95, min(old + 0.15, oracle)), 2)`; it rises by at most 0.15,
never exceeds 0.95, and never exceeds the oracle's raw confidence by more
than 0.005 (the 2-decimal rounding slack - it can round up past the raw
value, so "never exceeds the oracle's raw confidence" does not hold
exactly). -/
theorem confidence_update_formula (s : StudentState) (i : TurnInput) (k : ℕ)
    (hk : s.confidence = (k : ℚ) / 100)
    (hlock : s.level_locked = false) (hconf : s.confidence < 3/4)
    (h6 : s.turn_count < 6) :
    (turnStep s i).confidence =
      round2 (min (19/20) (min (s.confidence + 3/20) i.analysis.confidence)) ∧
    (turnStep s i).confidence ≤ s.confidence + 3/20 ∧
    (turnStep s i).confidence ≤ 19/20 ∧
    (turnStep s i).confidence ≤ i.analysis.confidence + 1/200 := by
  rw [turnStep_diag s i hlock h6 hconf, endTurn_confidence,
    diagnosisTurn_confidence]
  exact ⟨rfl, confSmooth_le_add _ _ k hk, confSmooth_le_cap _ _,
    confSmooth_le_raw _ _⟩

theorem confidence_update_formula_witness :
    (turnStep s0c (mkInput 3 1 false 1)).confidence =
      round2 (min (19/20) (min (s0c.confidence + 3/20)
        (mkInput 3 1 false 1).analysis.confidence)) ∧
    (turnStep s0c (mkInput 3 1 false 1)).confidence ≤ s0c.confidence + 3/20 ∧
    (turnStep s0c (mkInput 3 1 false 1)).confidence ≤ 19/20 ∧
    (turnStep s0c (mkInput 3 1 false 1)).confidence ≤
      (mkInput 3 1 false 1).analysis.confidence + 1/200 :=
  confidence_update_formula s0c (mkInput 3 1 false 1) 0
    (by norm_num [s0c, initState]) rfl (by norm_num [s0c, initState])
    (by decide)

theorem confidence_exceeds_oracle_counterexample :
    (turnStep s0c (mkInput 3 (3/500) false 3)).confidence = 1/100 ∧
    (mkInput 3 (3/500) false 3).analysis.confidence <
      (turnStep s0c (mkInput 3 (3/500) false 3)).confidence := by
  norm_num [turnStep, shotClock, diagnosisTurn, applyLocks, logEvent,
    levelUpdate, confSmooth, round2, roundHalfEven, endTurn, truthyAppend,
    clamp15, pyRound, s0c, initState, mkInput, mkJudgment, emptyStr]

/-- C1 (amended): on a diagnosis turn the smoothed confidence does not
decrease provided the oracle's raw confidence is at least the session's
current confidence; without that proviso the update can lower the
confidence to the oracle's raw value, so confidence is not monotonically
non-decreasing in general. -/
theorem confidence_nondecreasing_amended (s : StudentState) (i : TurnInput)
    (k : ℕ) (hk : s.confidence = (k : ℚ) / 100) (hk95 : k ≤ 95)
    (hlock : s.level_locked = false) (hconf : s.confidence < 3/4)
    (h6 : s.turn_count < 6)
    (hraw : s.confidence ≤ i.analysis.confidence) :
    s.confidence ≤ (turnStep s i).confidence := by
  rw [turnStep_diag s i hlock h6 hconf, endTurn_confidence,
    diagnosisTurn_confidence]
  refine le_confSmooth _ _ k hk ?_ hraw
  rw [hk]
  have hq : (k : ℚ) ≤ 95 := by exact_mod_cast hk95
  linarith

theorem confidence_nondecreasing_amended_witness :
    s0c.confidence ≤ (turnStep s0c (mkInput 3 1 false 1)).confidence :=
  confidence_nondecreasing_amended s0c (mkInput 3 1 false 1) 0
    (by norm_num [s0c, initState]) (by norm_num) rfl
    (by norm_num [s0c, initState]) (by decide)
    (by norm_num [s0c, initState, mkInput, mkJudgment])

theorem confidence_decreases_counterexample :
    (runLoop 8 s0c false [mkInput 3 1 false 1, mkInput 3 1 false 1,
        mkInput 3 1 false 1, mkInput 3 1 false 1]).confidence = 3/5 ∧
    (runLoop 8 s0c false [mkInput 3 1 false 1, mkInput 3 1 false 1,
        mkInput 3 1 false 1, mkInput 3 1 false 1]).diagnostic_events.length
      = 4 ∧
    (runLoop 8 s0c false [mkInput 3 1 false 1, mkInput 3 1 false 1,
        mkInput 3 1 false 1, mkInput 3 1 false 1,
        mkInput 3 (3/10) false 3]).confidence = 3/10 ∧
    (runLoop 8 s0c false [mkInput 3 1 false 1, mkInput 3 1 false 1,
        mkInput 3 1 false 1, mkInput 3 1 false 1,
        mkInput 3 (3/10) false 3]).diagnostic_events.length = 5 ∧
    (3 : ℚ)/10 < 3/5 := by
  norm_num [runLoop, turnStep, shotClock, diagnosisTurn, applyLocks, logEvent,
    levelUpdate, confSmooth, round2, roundHalfEven, endTurn, truthyAppend,
    clamp15, pyRound, s0c, initState, mkInput, mkJudgment, emptyStr]

end AITutor
